import Mathlib

/-!
Verification development for the Craft-Beer-Map-Spain repository.

The repository is a browser application (TypeScript/React).  This file gives a
shallow embedding of its core logic: the Brewery data model (`types.ts`), the
KML codec (`parseKML` / `exportKML` in the App component), and the collection
operations (`handleAddToMap`, `handleSave`, `handleCheckStatus`,
`handleDelete`, the import merge, manual add).

Modelling conventions:
* JavaScript strings are Lean `String`s (a wrapper around `List Char`); the
  string operations used by the source (`trim`, `toLowerCase`, `split`,
  `includes`) are re-implemented over the character list.  `toLowerCase` is
  modelled by ASCII lowering, which agrees with JavaScript on every string the
  theorems evaluate it on (their uppercase characters are ASCII).
* JavaScript numbers appearing as coordinates are modelled by `JSNum`, exact
  decimal fixed-point values `mant / 10 ^ exp`.  `String(x)` and
  `parseFloat(s)` are modelled by `renderNum` / `parseNum`; this mirrors the
  fact that in JavaScript number-to-string-to-number round-trips exactly, and
  that `parseFloat` of a non-numeric prefix is `NaN` (here: `none`).
* The KML/XML document is modelled as a parsed DOM tree (`XNode`); the
  browser's `DOMParser` and `getElementsByTagName` / `textContent` /
  `getAttribute` are external collaborators that the source code drives, and
  are given their DOM semantics over the tree.  The writer `exportKML` builds
  its output by string templates whose parse is exactly the tree built here
  (CDATA sections become text nodes; whitespace-only text nodes between
  elements are omitted as no traversal used by the code observes them).
-/

namespace CraftBeerMap

/-! ## JavaScript string primitives -/

/-- Whitespace characters relevant to `String.prototype.trim` /
`parseFloat` leading-space skipping (space, tab, LF, CR). -/
def jsWhitespaceChar (c : Char) : Bool :=
  c.toNat = 32 || c.toNat = 9 || c.toNat = 10 || c.toNat = 13

/-- Trim of a character list: drop whitespace from both ends. -/
def trimCharsL (l : List Char) : List Char :=
  ((l.dropWhile jsWhitespaceChar).reverse.dropWhile jsWhitespaceChar).reverse

/-- Model of `String.prototype.trim`. -/
def jsTrim (s : String) : String := ⟨trimCharsL s.data⟩

/-- Model of `String.prototype.toLowerCase` (ASCII lowering). -/
def jsToLower (s : String) : String := ⟨s.data.map Char.toLower⟩

/-- Split of a character list on a separator character. -/
def splitSepL (sep : Char) : List Char → List (List Char)
  | [] => [[]]
  | c :: rest =>
    if c = sep then [] :: splitSepL sep rest
    else
      match splitSepL sep rest with
      | [] => [[c]]
      | h :: t => (c :: h) :: t

/-- Model of `String.prototype.split` with a one-character separator. -/
def jsSplit (s : String) (sep : Char) : List String :=
  (splitSepL sep s.data).map String.mk

/-- Whether the first list is a prefix of the second. -/
def startsWithCh : List Char → List Char → Bool
  | [], _ => true
  | _ :: _, [] => false
  | a :: as, b :: bs => a = b && startsWithCh as bs

/-- Whether `needle` occurs as a contiguous substring of the second list. -/
def containsSubL (needle : List Char) : List Char → Bool
  | [] => startsWithCh needle []
  | c :: rest => startsWithCh needle (c :: rest) || containsSubL needle rest

/-- Model of `String.prototype.includes`. -/
def jsIncludes (s sub : String) : Bool := containsSubL sub.data s.data

/-! ## JavaScript numbers: exact decimal fixed-point model -/

/-- A decimal fixed-point number `mant / 10 ^ exp`, modelling the finite
JavaScript numbers the application manipulates (decimal-degree
coordinates). -/
structure JSNum where
  mant : Int
  exp : Nat
deriving DecidableEq

/-- The decimal digit character of a digit value below ten. -/
def digitCh : Nat → Char
  | 0 => '0' | 1 => '1' | 2 => '2' | 3 => '3' | 4 => '4'
  | 5 => '5' | 6 => '6' | 7 => '7' | 8 => '8' | _ => '9'

/-- Base-10 digits of a natural number, little-endian, with explicit fuel
(kernel-reducible; fuel `n` always suffices).  `0` has no digits. -/
def digitsLEF : Nat → Nat → List Nat
  | _, 0 => []
  | 0, _ => []
  | fuel + 1, n + 1 => ((n + 1) % 10) :: digitsLEF fuel ((n + 1) / 10)

/-- Base-10 digits, little-endian. -/
def digitsLE (n : Nat) : List Nat := digitsLEF n n

/-- Value of a little-endian digit list. -/
def valLE (l : List Nat) : Nat := l.foldr (fun d a => 10 * a + d) 0

/-- Big-endian decimal digit characters of a natural number (empty for 0). -/
def renderDigits (n : Nat) : List Char := ((digitsLE n).map digitCh).reverse

/-- Digit characters of `n` left-padded with zeros to length at least
`e + 1`. -/
def paddedDigits (n e : Nat) : List Char :=
  List.replicate (e + 1 - (renderDigits n).length) '0' ++ renderDigits n

/-- Integer-part digit characters. -/
def intPartCh (n e : Nat) : List Char :=
  (paddedDigits n e).take ((paddedDigits n e).length - e)

/-- Fraction-part digit characters (exactly `e` of them). -/
def fracPartCh (n e : Nat) : List Char :=
  (paddedDigits n e).drop ((paddedDigits n e).length - e)

/-- Unsigned decimal rendering of `n / 10 ^ e`. -/
def renderCore (n e : Nat) : List Char :=
  intPartCh n e ++ (if e = 0 then [] else '.' :: fracPartCh n e)

/-- Model of JavaScript number-to-string for a `JSNum`: sign, integer part,
and (when `exp > 0`) a decimal point with exactly `exp` fraction digits. -/
def renderNumL (d : JSNum) : List Char :=
  (if d.mant < 0 then ['-'] else []) ++ renderCore d.mant.natAbs d.exp

/-- String form of `renderNumL`. -/
def renderNum (d : JSNum) : String := ⟨renderNumL d⟩

/-- Decimal digit test (as used by the `parseFloat` model). -/
def myDigit (c : Char) : Bool := 48 ≤ c.toNat && c.toNat ≤ 57

/-- Value of a big-endian digit character list. -/
def charsVal (l : List Char) : Nat := l.foldl (fun a c => 10 * a + (c.toNat - 48)) 0

/-- Integer digits of a numeric literal body. -/
def numIntDigits (l2 : List Char) : List Char := l2.takeWhile myDigit

/-- Fraction digits of a numeric literal body (after an optional point). -/
def numFracDigits (l2 : List Char) : List Char :=
  match l2.dropWhile myDigit with
  | '.' :: r => r.takeWhile myDigit
  | _ => []

/-- The leftover input after the integer and fraction digits of a numeric
literal (where an exponent part may start). -/
def numTail (l2 : List Char) : List Char :=
  match l2.dropWhile myDigit with
  | '.' :: r => r.dropWhile myDigit
  | other => other

/-- Scale a decimal fixed-point value by `10 ^ k` (the exponent part of a
literal). -/
def applyExp (d : JSNum) (k : Int) : JSNum :=
  if 0 ≤ k then
    if k.toNat ≤ d.exp then ⟨d.mant, d.exp - k.toNat⟩
    else ⟨d.mant * (10 : Int) ^ (k.toNat - d.exp), 0⟩
  else ⟨d.mant, d.exp + (-k).toNat⟩

/-- The signed digits of an exponent part after the `e`/`E`; `0` when the
part is incomplete (then `parseFloat` does not consume it). -/
def parseExpSigned : List Char → Int
  | '-' :: t =>
    if (t.takeWhile myDigit).isEmpty then 0 else -(charsVal (t.takeWhile myDigit) : Int)
  | '+' :: t =>
    if (t.takeWhile myDigit).isEmpty then 0 else (charsVal (t.takeWhile myDigit) : Int)
  | t =>
    if (t.takeWhile myDigit).isEmpty then 0 else (charsVal (t.takeWhile myDigit) : Int)

/-- The exponent denoted at the start of `l` (`0` when there is none). -/
def parseExpVal (l : List Char) : Int :=
  match l with
  | 'e' :: r => parseExpSigned r
  | 'E' :: r => parseExpSigned r
  | _ => 0

/-- Parse the body of a finite numeric literal with a given sign; `none` when
no digits at all were found (the `NaN` case). -/
def parseNumSigned (negv : Bool) (l2 : List Char) : Option JSNum :=
  if (numIntDigits l2).isEmpty && (numFracDigits l2).isEmpty then none
  else if negv then
    some (applyExp ⟨-(charsVal (numIntDigits l2 ++ numFracDigits l2) : Int),
      (numFracDigits l2).length⟩ (parseExpVal (numTail l2)))
  else
    some (applyExp ⟨(charsVal (numIntDigits l2 ++ numFracDigits l2) : Int),
      (numFracDigits l2).length⟩ (parseExpVal (numTail l2)))

/-- A JavaScript number value as the coordinate pipeline can store it: a
finite decimal, or a signed infinity — `parseFloat("Infinity")` is
`Infinity`, and `Infinity` passes the source's `isNaN` guard.  `NaN` is
`none` at the parse boundary and is never stored on the KML path. -/
inductive JSVal where
  | num (d : JSNum)
  | inf (neg : Bool)
deriving DecidableEq

/-- Whether a stored number is finite. -/
def JSVal.isFinite : JSVal → Bool
  | .num _ => true
  | .inf _ => false

/-- The `Infinity` literal recognized by `parseFloat` (case-sensitive). -/
def infinityChars : List Char := ['I', 'n', 'f', 'i', 'n', 'i', 't', 'y']

/-- Model of JavaScript number-to-string for a stored number
(`String(Infinity)` is `"Infinity"`). -/
def renderValL : JSVal → List Char
  | .num d => renderNumL d
  | .inf false => infinityChars
  | .inf true => '-' :: infinityChars

/-- String form of `renderValL`. -/
def renderVal (x : JSVal) : String := ⟨renderValL x⟩

/-- Parse a literal body after the optional sign: the `Infinity` literal or a
finite decimal with optional fraction and exponent. -/
def parseBody (negv : Bool) (l2 : List Char) : Option JSVal :=
  if startsWithCh infinityChars l2 then some (JSVal.inf negv)
  else (parseNumSigned negv l2).map JSVal.num

/-- Dispatch on the optional sign character. -/
def parseAfterWs (l1 : List Char) : Option JSVal :=
  if l1.head? = some '-' then parseBody true l1.tail
  else if l1.head? = some '+' then parseBody false l1.tail
  else parseBody false l1

/-- Model of `parseFloat` over a character list: skip leading whitespace, an
optional sign, then the `Infinity` literal or integer digits with optional
fraction and exponent; `none` models `NaN`.  Trailing garbage is ignored, as
in JavaScript.  (Magnitude overflow of binary doubles to `Infinity` is
outside this exact-decimal model.) -/
def jsParseFloatL (l0 : List Char) : Option JSVal :=
  parseAfterWs (l0.dropWhile jsWhitespaceChar)

/-- Model of `parseFloat` on a string. -/
def jsParseFloat (s : String) : Option JSVal := jsParseFloatL s.data

/-- Model of `parseFloat` applied to a possibly-undefined string
(`parseFloat(undefined)` is `NaN`). -/
def jsParseFloatO (o : Option String) : Option JSVal := o.bind jsParseFloat

/-! ## Digit lemmas -/

theorem digitCh_lt_ten (d : Nat) (hd : d < 10) :
    myDigit (digitCh d) = true ∧ (digitCh d).toNat - 48 = d := by
  interval_cases d <;> exact ⟨rfl, rfl⟩

theorem digitsLEF_lt_ten : ∀ fuel n d, d ∈ digitsLEF fuel n → d < 10 := by
  intro fuel
  induction fuel with
  | zero => intro n d h; cases n <;> simp [digitsLEF] at h
  | succ f ih =>
    intro n d h
    match n with
    | 0 => simp [digitsLEF] at h
    | m + 1 =>
      simp only [digitsLEF, List.mem_cons] at h
      rcases h with h | h
      · subst h; exact Nat.mod_lt _ (by omega)
      · exact ih _ _ h

theorem valLE_digitsLEF : ∀ fuel n, n ≤ fuel → valLE (digitsLEF fuel n) = n := by
  intro fuel
  induction fuel with
  | zero => intro n h; interval_cases n; rfl
  | succ f ih =>
    intro n h
    match n with
    | 0 => rfl
    | m + 1 =>
      have hdiv : (m + 1) / 10 < m + 1 := Nat.div_lt_self (by omega) (by omega)
      have h2 : (m + 1) / 10 ≤ f := by omega
      simp only [digitsLEF, valLE, List.foldr_cons]
      have := ih _ h2
      simp only [valLE] at this
      rw [this]
      omega

theorem valLE_digitsLE (n : Nat) : valLE (digitsLE n) = n :=
  valLE_digitsLEF n n (Nat.le_refl n)

theorem digitsLE_lt_ten (n d : Nat) (h : d ∈ digitsLE n) : d < 10 :=
  digitsLEF_lt_ten n n d h

theorem charsVal_renderDigits (n : Nat) : charsVal (renderDigits n) = n := by
  have hfold :
      List.foldr (fun d a => 10 * a + ((digitCh d).toNat - 48)) 0 (digitsLE n)
        = valLE (digitsLE n) := by
    have haux : ∀ l : List Nat, (∀ d ∈ l, d < 10) →
        List.foldr (fun d a => 10 * a + ((digitCh d).toNat - 48)) 0 l = valLE l := by
      intro l
      induction l with
      | nil => intro _; rfl
      | cons d t iht =>
        intro hb
        have hd := (digitCh_lt_ten d (hb d (List.mem_cons_self d t))).2
        simp only [List.foldr_cons, valLE] at *
        rw [iht (fun x hx => hb x (List.mem_cons_of_mem d hx)), hd]
    exact haux _ (fun d hd => digitsLE_lt_ten n d hd)
  calc charsVal (renderDigits n)
      = List.foldr (fun d a => 10 * a + ((digitCh d).toNat - 48)) 0 (digitsLE n) := by
        simp only [charsVal, renderDigits, List.foldl_reverse, List.foldr_map]
    _ = valLE (digitsLE n) := hfold
    _ = n := valLE_digitsLE n

theorem renderDigits_digit (n : Nat) : ∀ c ∈ renderDigits n, myDigit c = true := by
  intro c hc
  simp only [renderDigits, List.mem_reverse, List.mem_map] at hc
  obtain ⟨d, hd, rfl⟩ := hc
  exact (digitCh_lt_ten d (digitsLE_lt_ten n d hd)).1

theorem paddedDigits_digit (n e : Nat) : ∀ c ∈ paddedDigits n e, myDigit c = true := by
  intro c hc
  rcases List.mem_append.mp hc with hc | hc
  · rw [List.eq_of_mem_replicate hc]; rfl
  · exact renderDigits_digit n c hc

theorem paddedDigits_length (n e : Nat) : e + 1 ≤ (paddedDigits n e).length := by
  simp only [paddedDigits, List.length_append, List.length_replicate]
  omega

/-! ## List helper lemmas -/

theorem charsVal_zeros_append (k : Nat) (l : List Char) :
    charsVal (List.replicate k '0' ++ l) = charsVal l := by
  induction k with
  | zero => rfl
  | succ m ih =>
    simpa [charsVal, List.replicate_succ] using ih

theorem takeWhile_all {p : Char → Bool} :
    ∀ l : List Char, (∀ c ∈ l, p c = true) → l.takeWhile p = l ∧ l.dropWhile p = [] := by
  intro l
  induction l with
  | nil => intro _; exact ⟨rfl, rfl⟩
  | cons c t ih =>
    intro h
    have hc := h c (List.mem_cons_self c t)
    have ht := ih (fun x hx => h x (List.mem_cons_of_mem c hx))
    simp only [List.takeWhile_cons, List.dropWhile_cons, hc, if_true, ht.1, ht.2,
      and_self]

theorem takeWhile_append_stop {p : Char → Bool} (a : List Char) (x : Char) (b : List Char)
    (ha : ∀ c ∈ a, p c = true) (hx : p x = false) :
    (a ++ x :: b).takeWhile p = a ∧ (a ++ x :: b).dropWhile p = x :: b := by
  induction a with
  | nil =>
    simp only [List.nil_append, List.takeWhile_cons, List.dropWhile_cons, hx,
      Bool.false_eq_true, if_false, and_self]
  | cons c t ih =>
    have hc := ha c (List.mem_cons_self c t)
    have ht := ih (fun y hy => ha y (List.mem_cons_of_mem c hy))
    simp only [List.cons_append, List.takeWhile_cons, List.dropWhile_cons, hc, if_true,
      ht.1, ht.2, and_self]

theorem dropWhile_all_false {p : Char → Bool} :
    ∀ l : List Char, (∀ c ∈ l, p c = false) → l.dropWhile p = l := by
  intro l
  induction l with
  | nil => intro _; rfl
  | cons c t _ =>
    intro h
    simp [List.dropWhile_cons, h c (List.mem_cons_self c t)]

theorem trimCharsL_no_ws (l : List Char) (h : ∀ c ∈ l, jsWhitespaceChar c = false) :
    trimCharsL l = l := by
  unfold trimCharsL
  rw [dropWhile_all_false l h, dropWhile_all_false l.reverse (by
    intro c hc; exact h c (List.mem_reverse.mp hc)), List.reverse_reverse]

theorem list_append_eq_ap (a b : List Char) : a.append b = a ++ b := rfl

theorem splitSepL_no_sep (sep : Char) :
    ∀ l : List Char, sep ∉ l → splitSepL sep l = [l] := by
  intro l
  induction l with
  | nil => intro _; rfl
  | cons c t ih =>
    intro h
    have hc : ¬ c = sep := fun hc => h (hc ▸ List.mem_cons_self c t)
    have ht := ih (fun hm => h (List.mem_cons_of_mem c hm))
    simp [splitSepL, hc, ht]

theorem splitSepL_append (sep : Char) :
    ∀ (a rest : List Char), sep ∉ a →
      splitSepL sep (a ++ sep :: rest) = a :: splitSepL sep rest := by
  intro a
  induction a with
  | nil => intro rest _; simp [splitSepL]
  | cons c t ih =>
    intro rest h
    have hc : ¬ c = sep := fun hc => h (hc ▸ List.mem_cons_self c t)
    have ht := ih rest (fun hm => h (List.mem_cons_of_mem c hm))
    simp only [List.cons_append, splitSepL, if_neg hc, list_append_eq_ap, ht]

/-! ## The parse/render round trip -/

theorem intPart_frac_append (n e : Nat) : intPartCh n e ++ fracPartCh n e = paddedDigits n e :=
  List.take_append_drop _ _

theorem intPartCh_digit (n e : Nat) : ∀ c ∈ intPartCh n e, myDigit c = true := by
  intro c hc
  exact paddedDigits_digit n e c (List.mem_of_mem_take hc)

theorem fracPartCh_digit (n e : Nat) : ∀ c ∈ fracPartCh n e, myDigit c = true := by
  intro c hc
  exact paddedDigits_digit n e c (List.mem_of_mem_drop hc)

theorem fracPartCh_length (n e : Nat) : (fracPartCh n e).length = e := by
  have := paddedDigits_length n e
  simp only [fracPartCh, List.length_drop]
  omega

theorem intPartCh_ne_nil (n e : Nat) : intPartCh n e ≠ [] := by
  have h1 := paddedDigits_length n e
  intro h
  have : (intPartCh n e).length = 0 := by rw [h]; rfl
  simp only [intPartCh, List.length_take] at this
  omega

theorem charsVal_paddedDigits (n e : Nat) : charsVal (paddedDigits n e) = n := by
  rw [paddedDigits, charsVal_zeros_append, charsVal_renderDigits]

theorem numParts_int_only (a : List Char) (ha : ∀ c ∈ a, myDigit c = true) :
    numIntDigits a = a ∧ numFracDigits a = [] := by
  have h := takeWhile_all a ha
  refine ⟨h.1, ?_⟩
  unfold numFracDigits
  rw [h.2]

theorem numParts_with_frac (a b : List Char) (ha : ∀ c ∈ a, myDigit c = true)
    (hb : ∀ c ∈ b, myDigit c = true) :
    numIntDigits (a ++ '.' :: b) = a ∧ numFracDigits (a ++ '.' :: b) = b := by
  have hdot : myDigit '.' = false := by decide
  have h := takeWhile_append_stop a '.' b ha hdot
  refine ⟨h.1, ?_⟩
  unfold numFracDigits
  rw [h.2]
  exact (takeWhile_all b hb).1

theorem applyExp_zero (d : JSNum) : applyExp d 0 = d := by
  unfold applyExp
  simp

theorem numTail_int_only (a : List Char) (ha : ∀ c ∈ a, myDigit c = true) :
    numTail a = [] := by
  unfold numTail
  rw [(takeWhile_all a ha).2]

theorem numTail_with_frac (a b : List Char) (ha : ∀ c ∈ a, myDigit c = true)
    (hb : ∀ c ∈ b, myDigit c = true) :
    numTail (a ++ '.' :: b) = [] := by
  unfold numTail
  rw [(takeWhile_append_stop a '.' b ha (by decide)).2]
  simp only [(takeWhile_all b hb).2]

theorem parseNumSigned_int (negv : Bool) (a : List Char)
    (ha : ∀ c ∈ a, myDigit c = true) (hne : a ≠ []) :
    parseNumSigned negv a
      = some ⟨if negv then -(charsVal a : Int) else (charsVal a : Int), 0⟩ := by
  obtain ⟨h1, h2⟩ := numParts_int_only a ha
  unfold parseNumSigned
  rw [h1, h2, numTail_int_only a ha]
  have : a.isEmpty = false := by
    cases a with
    | nil => exact absurd rfl hne
    | cons x t => rfl
  simp only [this, List.isEmpty_nil, Bool.and_true, Bool.false_eq_true, if_false,
    List.append_nil, List.length_nil]
  have hexp : parseExpVal [] = 0 := rfl
  rw [hexp]
  cases negv <;> simp [applyExp_zero]

theorem parseNumSigned_frac (negv : Bool) (a b : List Char)
    (ha : ∀ c ∈ a, myDigit c = true) (hb : ∀ c ∈ b, myDigit c = true) (hne : a ≠ []) :
    parseNumSigned negv (a ++ '.' :: b)
      = some ⟨if negv then -(charsVal (a ++ b) : Int) else (charsVal (a ++ b) : Int),
              b.length⟩ := by
  obtain ⟨h1, h2⟩ := numParts_with_frac a b ha hb
  unfold parseNumSigned
  rw [h1, h2, numTail_with_frac a b ha hb]
  have : a.isEmpty = false := by
    cases a with
    | nil => exact absurd rfl hne
    | cons x t => rfl
  simp only [this, Bool.false_and, Bool.false_eq_true, if_false]
  have hexp : parseExpVal [] = 0 := rfl
  rw [hexp]
  cases negv <;> simp [applyExp_zero]

theorem renderCore_digits_or_dot (n e : Nat) :
    ∀ c ∈ renderCore n e, c = '.' ∨ myDigit c = true := by
  intro c hc
  unfold renderCore at hc
  rcases List.mem_append.mp hc with hc | hc
  · exact Or.inr (intPartCh_digit n e c hc)
  · by_cases he : e = 0
    · rw [if_pos he] at hc; simp at hc
    · rw [if_neg he] at hc
      rcases List.mem_cons.mp hc with rfl | hc
      · exact Or.inl rfl
      · exact Or.inr (fracPartCh_digit n e c hc)

theorem renderNumL_members (d : JSNum) :
    ∀ c ∈ renderNumL d, c = '-' ∨ c = '.' ∨ myDigit c = true := by
  intro c hc
  unfold renderNumL at hc
  rcases List.mem_append.mp hc with hc | hc
  · by_cases hm : d.mant < 0
    · rw [if_pos hm] at hc
      simp only [List.mem_singleton] at hc
      exact Or.inl hc
    · rw [if_neg hm] at hc; simp at hc
  · rcases renderCore_digits_or_dot _ _ c hc with h | h
    · exact Or.inr (Or.inl h)
    · exact Or.inr (Or.inr h)

theorem myDigit_not_ws (c : Char) (h : myDigit c = true) : jsWhitespaceChar c = false := by
  simp only [myDigit, Bool.and_eq_true, decide_eq_true_eq] at h
  simp only [jsWhitespaceChar, Bool.or_eq_false_iff, decide_eq_false_iff_not]
  omega

theorem renderNumL_no_ws (d : JSNum) : ∀ c ∈ renderNumL d, jsWhitespaceChar c = false := by
  intro c hc
  rcases renderNumL_members d c hc with rfl | rfl | h
  · rfl
  · rfl
  · exact myDigit_not_ws c h

theorem renderNumL_no_comma (d : JSNum) : ',' ∉ renderNumL d := by
  intro hc
  rcases renderNumL_members d ',' hc with h | h | h
  · exact absurd h (by decide)
  · exact absurd h (by decide)
  · exact absurd h (by decide)

theorem parseNumSigned_renderCore_neg (n e : Nat) :
    parseNumSigned true (renderCore n e) = some ⟨-(n : Int), e⟩ := by
  unfold renderCore
  by_cases he : e = 0
  · subst he
    rw [if_pos rfl, List.append_nil,
      parseNumSigned_int true _ (intPartCh_digit n 0) (intPartCh_ne_nil n 0)]
    have hi : intPartCh n 0 = paddedDigits n 0 := by
      unfold intPartCh
      simp
    rw [hi, charsVal_paddedDigits]
    simp
  · rw [if_neg he,
      parseNumSigned_frac true _ _ (intPartCh_digit n e) (fracPartCh_digit n e)
        (intPartCh_ne_nil n e), intPart_frac_append, charsVal_paddedDigits, fracPartCh_length]
    simp

theorem parseNumSigned_renderCore_pos (n e : Nat) :
    parseNumSigned false (renderCore n e) = some ⟨(n : Int), e⟩ := by
  unfold renderCore
  by_cases he : e = 0
  · subst he
    rw [if_pos rfl, List.append_nil,
      parseNumSigned_int false _ (intPartCh_digit n 0) (intPartCh_ne_nil n 0)]
    have hi : intPartCh n 0 = paddedDigits n 0 := by
      unfold intPartCh
      simp
    rw [hi, charsVal_paddedDigits]
    simp
  · rw [if_neg he,
      parseNumSigned_frac false _ _ (intPartCh_digit n e) (fracPartCh_digit n e)
        (intPartCh_ne_nil n e), intPart_frac_append, charsVal_paddedDigits, fracPartCh_length]
    simp

theorem renderCore_cons (n e : Nat) : ∃ c0 t0, renderCore n e = c0 :: t0 := by
  cases hx : renderCore n e with
  | nil =>
    have hne := intPartCh_ne_nil n e
    unfold renderCore at hx
    cases hy : intPartCh n e with
    | nil => exact absurd hy hne
    | cons a b => rw [hy] at hx; simp at hx
  | cons a b => exact ⟨a, b, rfl⟩

theorem startsWith_inf_renderCore (n e : Nat) :
    startsWithCh infinityChars (renderCore n e) = false := by
  obtain ⟨c0, t0, hc0⟩ := renderCore_cons n e
  have hc0m : c0 ∈ renderCore n e := by rw [hc0]; exact List.mem_cons_self _ _
  have hc0d : c0 = '.' ∨ myDigit c0 = true := renderCore_digits_or_dot n e c0 hc0m
  rw [hc0]
  show (('I' = c0 : Bool) && startsWithCh ['n', 'f', 'i', 'n', 'i', 't', 'y'] t0) = false
  have hne : ('I' = c0 : Bool) = false := by
    simp only [decide_eq_false_iff_not]
    intro hx
    rcases hc0d with rfl | h
    · exact absurd hx.symm (by decide)
    · rw [← hx] at h
      exact absurd h (by decide)
  rw [hne]
  rfl

theorem parseBody_renderCore_neg (n e : Nat) :
    parseBody true (renderCore n e) = some (JSVal.num ⟨-(n : Int), e⟩) := by
  unfold parseBody
  rw [startsWith_inf_renderCore n e]
  simp only [Bool.false_eq_true, if_false, parseNumSigned_renderCore_neg n e,
    Option.map_some']

theorem parseBody_renderCore_pos (n e : Nat) :
    parseBody false (renderCore n e) = some (JSVal.num ⟨(n : Int), e⟩) := by
  unfold parseBody
  rw [startsWith_inf_renderCore n e]
  simp only [Bool.false_eq_true, if_false, parseNumSigned_renderCore_pos n e,
    Option.map_some']

theorem parseAfterWs_renderCore_neg (n e : Nat) :
    parseAfterWs ('-' :: renderCore n e) = some (JSVal.num ⟨-(n : Int), e⟩) := by
  unfold parseAfterWs
  simp only [List.head?_cons, List.tail_cons]
  rw [if_pos trivial]
  exact parseBody_renderCore_neg n e

theorem parseAfterWs_renderCore_pos (n e : Nat) :
    parseAfterWs (renderCore n e) = some (JSVal.num ⟨(n : Int), e⟩) := by
  obtain ⟨c0, t0, hc0⟩ := renderCore_cons n e
  have hc0m : c0 ∈ renderCore n e := by rw [hc0]; exact List.mem_cons_self _ _
  have hc0d : c0 = '.' ∨ myDigit c0 = true := renderCore_digits_or_dot n e c0 hc0m
  have hnm : ¬ ((renderCore n e).head? = some '-') := by
    rw [hc0]
    simp only [List.head?_cons, Option.some.injEq]
    rcases hc0d with rfl | h
    · decide
    · intro hx
      rw [hx] at h
      exact absurd h (by decide)
  have hnp : ¬ ((renderCore n e).head? = some '+') := by
    rw [hc0]
    simp only [List.head?_cons, Option.some.injEq]
    rcases hc0d with rfl | h
    · decide
    · intro hx
      rw [hx] at h
      exact absurd h (by decide)
  unfold parseAfterWs
  rw [if_neg hnm, if_neg hnp]
  exact parseBody_renderCore_pos n e

theorem parse_render_num (d : JSNum) : jsParseFloatL (renderNumL d) = some (JSVal.num d) := by
  have hws : (renderNumL d).dropWhile jsWhitespaceChar = renderNumL d :=
    dropWhile_all_false _ (renderNumL_no_ws d)
  unfold jsParseFloatL
  rw [hws]
  obtain ⟨m, e⟩ := d
  by_cases hm : m < 0
  · have hout : renderNumL ⟨m, e⟩ = '-' :: renderCore m.natAbs e := by
      unfold renderNumL
      simp [hm]
    rw [hout, parseAfterWs_renderCore_neg]
    have habs : -(m.natAbs : Int) = m := by omega
    rw [habs]
  · have hout : renderNumL ⟨m, e⟩ = renderCore m.natAbs e := by
      unfold renderNumL
      simp [hm]
    rw [hout, parseAfterWs_renderCore_pos]
    have habs : (m.natAbs : Int) = m := by omega
    rw [habs]

theorem parse_render (x : JSVal) : jsParseFloatL (renderValL x) = some x := by
  cases x with
  | num d => exact parse_render_num d
  | inf neg => cases neg <;> decide

theorem parse_render_str (x : JSVal) : jsParseFloat (renderVal x) = some x :=
  parse_render x

theorem renderValL_no_ws (x : JSVal) : ∀ c ∈ renderValL x, jsWhitespaceChar c = false := by
  cases x with
  | num d => exact renderNumL_no_ws d
  | inf neg => cases neg <;> decide

theorem renderValL_no_comma (x : JSVal) : ',' ∉ renderValL x := by
  cases x with
  | num d => exact renderNumL_no_comma d
  | inf neg => cases neg <;> decide

/-! ## Description sanitizing

The source cleans placemark descriptions with
`description.replace(/<br\s*\/?>/gi, '\n').replace(/<[^>]+>/g, '').trim()`.
The two regex passes are modelled by character scanners with explicit fuel
(one unit per consumed character, so fuel `l.length` always suffices and the
functions stay kernel-reducible). -/

/-- Try to match the remainder of a br-tag (`r\s*\/?>` after a leading
`<` and `b`), case-insensitively; returns the rest of the input. -/
def matchBr (l : List Char) : Option (List Char) :=
  match l with
  | b :: r :: rest =>
    if (b = 'b' ∨ b = 'B') ∧ (r = 'r' ∨ r = 'R') then
      match rest.dropWhile jsWhitespaceChar with
      | '/' :: '>' :: t => some t
      | '>' :: t => some t
      | _ => none
    else none
  | _ => none

/-- One pass replacing `<br>`-style tags by a newline. -/
def replaceBrF : Nat → List Char → List Char
  | 0, l => l
  | _ + 1, [] => []
  | fuel + 1, c :: rest =>
    if c = '<' then
      match matchBr rest with
      | some rest2 => '\n' :: replaceBrF fuel rest2
      | none => '<' :: replaceBrF fuel rest
    else c :: replaceBrF fuel rest

/-- Replace `<br>`-style tags (the `/<br\s*\/?>/gi` pass). -/
def replaceBr (l : List Char) : List Char := replaceBrF l.length l

/-- One pass removing `<...>` tags (the `/<[^>]+>/g` pass): a `<` swallows up
to the first following `>` provided at least one character lies between. -/
def stripTagsF : Nat → List Char → List Char
  | 0, l => l
  | _ + 1, [] => []
  | fuel + 1, c :: rest =>
    if c = '<' then
      match rest.findIdx? (fun x => x = '>') with
      | none => c :: rest
      | some 0 => '<' :: stripTagsF fuel rest
      | some (k + 1) => stripTagsF fuel (rest.drop (k + 2))
    else c :: stripTagsF fuel rest

/-- Remove `<...>` tags. -/
def stripTags (l : List Char) : List Char := stripTagsF l.length l

/-- Model of the `cleanDesc` computation in `parsePlacemark`. -/
def cleanDescription (s : String) : String :=
  ⟨trimCharsL (stripTags (replaceBr s.data))⟩

theorem replaceBrF_no_lt : ∀ fuel (l : List Char), l.length ≤ fuel → '<' ∉ l →
    replaceBrF fuel l = l := by
  intro fuel
  induction fuel with
  | zero => intro l _ _; rfl
  | succ f ih =>
    intro l hlen hlt
    match l with
    | [] => rfl
    | c :: rest =>
      have hc : ¬ c = '<' := fun h => hlt (h ▸ List.mem_cons_self c rest)
      have hrest : '<' ∉ rest := fun h => hlt (List.mem_cons_of_mem c h)
      have hl2 : rest.length ≤ f := by
        simp only [List.length_cons] at hlen
        omega
      simp only [replaceBrF, if_neg hc, ih rest hl2 hrest]

theorem stripTagsF_no_lt : ∀ fuel (l : List Char), l.length ≤ fuel → '<' ∉ l →
    stripTagsF fuel l = l := by
  intro fuel
  induction fuel with
  | zero => intro l _ _; rfl
  | succ f ih =>
    intro l hlen hlt
    match l with
    | [] => rfl
    | c :: rest =>
      have hc : ¬ c = '<' := fun h => hlt (h ▸ List.mem_cons_self c rest)
      have hrest : '<' ∉ rest := fun h => hlt (List.mem_cons_of_mem c h)
      have hl2 : rest.length ≤ f := by
        simp only [List.length_cons] at hlen
        omega
      simp only [stripTagsF, if_neg hc, ih rest hl2 hrest]

theorem cleanDescription_plain (s : String) (h1 : '<' ∉ s.data)
    (h2 : trimCharsL s.data = s.data) : cleanDescription s = s := by
  unfold cleanDescription
  rw [stripTags, replaceBr, replaceBrF_no_lt s.data.length s.data (Nat.le_refl _) h1,
    stripTagsF_no_lt s.data.length s.data (Nat.le_refl _) h1, h2]

/-- Model of the browser-side anchor-href extraction used by parse Strategy 3
(`tempDiv.innerHTML = description; …getElementsByTagName('a')…
getAttribute('href')`): collect the quoted bodies following each
`href="` occurrence. -/
def extractHrefsF : Nat → List Char → List String
  | 0, _ => []
  | _ + 1, [] => []
  | fuel + 1, c :: rest =>
    if startsWithCh ['h', 'r', 'e', 'f', '=', '\"'] (c :: rest) then
      ⟨(rest.drop 5).takeWhile (fun x => !(x = '\"'))⟩ ::
        extractHrefsF fuel ((rest.drop 5).dropWhile (fun x => !(x = '\"')))
    else extractHrefsF fuel rest

/-- Anchor-href extraction from description HTML (Strategy 3 input). -/
def extractHrefs (s : String) : List String := extractHrefsF s.data.length s.data

theorem extractHrefsF_no_h : ∀ fuel (l : List Char), 'h' ∉ l →
    extractHrefsF fuel l = [] := by
  intro fuel
  induction fuel with
  | zero => intro l _; rfl
  | succ f ih =>
    intro l hh
    match l with
    | [] => rfl
    | c :: rest =>
      have hc : ¬ c = 'h' := fun h => hh (h ▸ List.mem_cons_self c rest)
      have hrest : 'h' ∉ rest := fun h => hh (List.mem_cons_of_mem c h)
      have hpref : startsWithCh ['h', 'r', 'e', 'f', '=', '\"'] (c :: rest) = false := by
        simp only [startsWithCh, Bool.and_eq_false_iff]
        left
        simp only [decide_eq_false_iff_not]
        exact fun h => hc h.symm
      simp only [extractHrefsF, hpref, Bool.false_eq_true, if_false, ih rest hrest]

/-! ## Domain model (`types.ts`) -/

/-- The `BreweryCategory` enum. -/
inductive BreweryCategory
  | MYTHIC
  | GOLD
  | SILVER
  | COMMON
  | TAP_ROOM
deriving DecidableEq

/-- The string value of each `BreweryCategory` member. -/
def BreweryCategory.label : BreweryCategory → String
  | .MYTHIC => "Lúpulo Mítico"
  | .GOLD => "Lúpulo de Oro"
  | .SILVER => "Lúpulo de Plata"
  | .COMMON => "Lúpulo Común"
  | .TAP_ROOM => "Tap Room"

/-- `Object.values(BreweryCategory)`, in declaration order. -/
def categoryValues : List BreweryCategory :=
  [.MYTHIC, .GOLD, .SILVER, .COMMON, .TAP_ROOM]

/-- The `AliveStatus` union type. -/
inductive AliveStatus
  | active
  | inactive
  | unknown
deriving DecidableEq

/-- The string value of each `AliveStatus` member. -/
def AliveStatus.toStr : AliveStatus → String
  | .active => "active"
  | .inactive => "inactive"
  | .unknown => "unknown"

/-- The `Coordinates` interface (fields are JavaScript numbers, which the
decode path can set to a signed infinity). -/
structure Coordinates where
  lat : JSVal
  lng : JSVal
deriving DecidableEq

/-- The `Brewery` interface.  Optional fields are `Option`s; a JavaScript
empty string is `some ""` (present but falsy), `undefined` is `none`. -/
structure Brewery where
  id : String
  name : String
  description : String
  category : BreweryCategory
  coordinates : Coordinates
  address : Option String := none
  website : Option String := none
  googleMapsUri : Option String := none
  aliveStatus : Option AliveStatus := none
  lastAliveCheck : Option String := none
deriving DecidableEq

/-- JavaScript truthiness of an optional string (`undefined` and `""` are
falsy). -/
def truthyStr : Option String → Bool
  | none => false
  | some s => !(s == "")

/-! ## XML document model

`XNode` is the parsed DOM tree the browser's `DOMParser` hands to `parseKML`.
`nodesByTag` is `getElementsByTagName` (all descendant elements with the tag,
in document order, the receiver excluded); `textContentN` is `textContent`;
`getAttr` is `getAttribute`. -/

inductive XNode
  | elem (tag : String) (attrs : List (String × String)) (children : List XNode)
  | text (s : String)

mutual

def nodesByTag (tag : String) : XNode → List XNode
  | .text _ => []
  | .elem _ _ cs => nodesByTagList tag cs

def nodesByTagList (tag : String) : List XNode → List XNode
  | [] => []
  | c :: rest =>
    (match c with
     | XNode.elem t a ch => if t = tag then [XNode.elem t a ch] else []
     | XNode.text _ => []) ++ nodesByTag tag c ++ nodesByTagList tag rest

end

mutual

def textContentN : XNode → String
  | .text s => s
  | .elem _ _ cs => textContentList cs

def textContentList : List XNode → String
  | [] => ""
  | c :: rest => textContentN c ++ textContentList rest

end

/-- Model of `getAttribute` (null when absent). -/
def getAttr (x : XNode) (nm : String) : Option String :=
  match x with
  | .elem _ attrs _ => (attrs.find? (fun p => p.1 = nm)).map (fun p => p.2)
  | .text _ => none

/-! ## KML decode (`parseKML` in the App component) -/

/-- `getCategoryFromFolder` in `parseKML`. -/
def getCategoryFromFolder (name : String) : BreweryCategory :=
  if jsIncludes (jsTrim (jsToLower name)) "mítico"
      || jsIncludes (jsTrim (jsToLower name)) "mitico" then .MYTHIC
  else if jsIncludes (jsTrim (jsToLower name)) "oro" then .GOLD
  else if jsIncludes (jsTrim (jsToLower name)) "plata" then .SILVER
  else if jsIncludes (jsTrim (jsToLower name)) "tap room"
      || jsIncludes (jsTrim (jsToLower name)) "taproom" then .TAP_ROOM
  else .COMMON

/-- The mutable locals of `parsePlacemark` (`website`, `googleMapsUri`,
`address`, `aliveStatus`). -/
structure ExtAcc where
  website : String
  googleMapsUri : String
  address : String
  aliveStatus : AliveStatus
deriving DecidableEq

/-- One iteration of the Strategy-1 loop over `<Data>` nodes. -/
def dataStep (acc : ExtAcc) (node : XNode) : ExtAcc :=
  match (getAttr node "name").map jsToLower,
        ((nodesByTag "value" node).head?.map textContentN).map jsTrim with
  | some na, some v =>
    if na ≠ "" ∧ v ≠ "" then
      if na ∈ ["website", "web", "url", "site", "gx_media_links"] then
        { acc with website := ((jsSplit v ' ').head?).getD "" }
      else if na ∈ ["googlemapsuri", "google_maps_uri", "maps_link", "map_link",
          "google_maps"] then
        { acc with googleMapsUri := v }
      else if na ∈ ["address", "direccion", "dirección", "location"] then
        { acc with address := v }
      else if na ∈ ["alivestatus", "status", "active"] then
        if v = "active" then { acc with aliveStatus := .active }
        else if v = "inactive" then { acc with aliveStatus := .inactive }
        else if v = "unknown" then { acc with aliveStatus := .unknown }
        else acc
      else acc
    else acc
  | _, _ => acc

/-- One iteration of the Strategy-2 loop over `<SimpleData>` nodes. -/
def simpleDataStep (acc : ExtAcc) (node : XNode) : ExtAcc :=
  match (getAttr node "name").map jsToLower with
  | some na =>
    if na ≠ "" ∧ jsTrim (textContentN node) ≠ "" then
      if na ∈ ["website", "web", "url", "site"] then
        { acc with website := jsTrim (textContentN node) }
      else if na ∈ ["googlemapsuri", "google_maps_uri", "maps_link", "map_link",
          "google_maps"] then
        { acc with googleMapsUri := jsTrim (textContentN node) }
      else if na ∈ ["address", "direccion", "dirección", "location"] then
        { acc with address := jsTrim (textContentN node) }
      else if na ∈ ["alivestatus", "status", "active"] then
        if jsTrim (textContentN node) = "active" then { acc with aliveStatus := .active }
        else if jsTrim (textContentN node) = "inactive" then
          { acc with aliveStatus := .inactive }
        else if jsTrim (textContentN node) = "unknown" then
          { acc with aliveStatus := .unknown }
        else acc
      else acc
    else acc
  | none => acc

/-- One iteration of the Strategy-3 loop over description links. -/
def linkStep (acc : ExtAcc) (href : String) : ExtAcc :=
  if href ≠ "" then
    if jsIncludes href "google.com/maps" || jsIncludes href "maps.google.com"
        || jsIncludes href "goo.gl/maps" then
      if acc.googleMapsUri = "" then { acc with googleMapsUri := href } else acc
    else
      if acc.website = "" then { acc with website := href } else acc
  else acc

/-- The trimmed text of the first `<coordinates>` of the first `<Point>`
(`coordsRaw` in `parsePlacemark`); `none` when the point or its
coordinates tag is missing. -/
def coordText (p : XNode) : Option String :=
  match nodesByTag "Point" p with
  | [] => none
  | pt :: _ => ((nodesByTag "coordinates" pt).head?.map textContentN).map jsTrim

/-- `parsePlacemark` from `parseKML`; `fid` is the freshly generated id. -/
def parsePlacemark (fid : String) (p : XNode) (defaultCategory : BreweryCategory) :
    Option Brewery :=
  let nameRaw := ((nodesByTag "name" p).head?.map textContentN).getD ""
  let name := if nameRaw = "" then "Unknown Location" else nameRaw
  let description := ((nodesByTag "description" p).head?.map textContentN).getD ""
  let acc1 := (nodesByTag "Data" p).foldl dataStep ⟨"", "", "", .unknown⟩
  let acc2 := (nodesByTag "SimpleData" p).foldl simpleDataStep acc1
  let acc3 := if acc2.website = "" ∨ acc2.googleMapsUri = "" then
      (extractHrefs description).foldl linkStep acc2
    else acc2
  match coordText p with
  | none => none
  | some raw =>
    if raw = "" then none
    else
      match jsParseFloatO ((jsSplit raw ',').get? 0),
        jsParseFloatO ((jsSplit raw ',').get? 1) with
      | some lg, some lt =>
        some { id := fid, name := name, description := cleanDescription description,
               category := defaultCategory, coordinates := ⟨lt, lg⟩,
               address := some acc3.address,
               website := if acc3.website = "" then none else some acc3.website,
               googleMapsUri := if acc3.googleMapsUri = "" then none
                 else some acc3.googleMapsUri,
               aliveStatus := some acc3.aliveStatus,
               lastAliveCheck := none }
      | _, _ => none

/-- Stand-in for `generateId()` (time-and-randomness based, opaque, fresh);
the decode pipeline threads a counter seed. -/
def genId (n : Nat) : String := "gen-" ++ Nat.repr n

/-- The placemark loop: parse each placemark, skipping failures; the counter
advances exactly when a record is produced (when the source calls
`generateId`). -/
def parsePlacemarks (n : Nat) (cat : BreweryCategory) : List XNode → List Brewery
  | [] => []
  | p :: rest =>
    match parsePlacemark (genId n) p cat with
    | some b => b :: parsePlacemarks (n + 1) cat rest
    | none => parsePlacemarks n cat rest

/-- The folder traversal of `parseKML`: the decoded records and the
`foundInFolders` flag. -/
def parseFolders (n : Nat) : List XNode → List Brewery × Bool
  | [] => ([], false)
  | f :: rest =>
    (parsePlacemarks n
        (getCategoryFromFolder (((nodesByTag "name" f).head?.map textContentN).getD ""))
        (nodesByTag "Placemark" f)
      ++ (parseFolders (n + (parsePlacemarks n
            (getCategoryFromFolder (((nodesByTag "name" f).head?.map textContentN).getD ""))
            (nodesByTag "Placemark" f)).length) rest).1,
     decide (0 < (nodesByTag "Placemark" f).length)
       || (parseFolders (n + (parsePlacemarks n
            (getCategoryFromFolder (((nodesByTag "name" f).head?.map textContentN).getD ""))
            (nodesByTag "Placemark" f)).length) rest).2)

/-- `parseKML` (the decode path), as a pure function of the parsed document;
`seed` threads fresh-id generation. -/
def parseKML (seed : Nat) (doc : XNode) : List Brewery :=
  if (parseFolders seed (nodesByTag "Folder" doc)).2 then
    (parseFolders seed (nodesByTag "Folder" doc)).1
  else parsePlacemarks seed .COMMON (nodesByTag "Placemark" doc)

/-! ## KML encode (`exportKML`) -/

/-- An `ExtendedData` entry, emitted only when the field is truthy. -/
def optData (nm : String) (v : Option String) : List XNode :=
  match v with
  | some s =>
    if s = "" then []
    else [XNode.elem "Data" [("name", nm)] [XNode.elem "value" [] [XNode.text s]]]
  | none => []

/-- The placemark written for one brewery. -/
def encodePlacemark (b : Brewery) : XNode :=
  XNode.elem "Placemark" []
    [XNode.elem "name" [] [XNode.text b.name],
     XNode.elem "description" [] [XNode.text b.description],
     XNode.elem "ExtendedData" []
       (optData "address" b.address ++ optData "website" b.website ++
        optData "googleMapsUri" b.googleMapsUri ++
        optData "aliveStatus" (b.aliveStatus.map AliveStatus.toStr)),
     XNode.elem "Point" []
       [XNode.elem "coordinates" []
         [XNode.text (renderVal b.coordinates.lng ++ "," ++ renderVal b.coordinates.lat
            ++ ",0")]]]

/-- The folder written for one category. -/
def encodeFolder (cat : BreweryCategory) (bs : List Brewery) : XNode :=
  XNode.elem "Folder" []
    (XNode.elem "name" [] [XNode.text cat.label] :: bs.map encodePlacemark)

/-- `exportKML`, modelled as the DOM tree its emitted text parses to. -/
def exportKML (breweries : List Brewery) : XNode :=
  XNode.elem "kml" []
    [XNode.elem "Document" []
      (XNode.elem "name" [] [XNode.text "Craft Beer Map Spain"] ::
       categoryValues.filterMap (fun cat =>
         if (breweries.filter (fun b => b.category = cat)).isEmpty then none
         else some (encodeFolder cat (breweries.filter (fun b => b.category = cat)))))]

/-! ## Collection operations (App component) -/

/-- The import merge in `parseKML`: append the decoded records whose
lower-cased name is not already present in the committed collection. -/
def mergeImported (existing incoming : List Brewery) : List Brewery :=
  existing ++ incoming.filter (fun b =>
    !((existing.map (fun e => jsToLower e.name)).contains (jsToLower b.name)))

/-- The import action: merge when anything was decoded; the second component
is the count shown by the `Successfully imported … locations` alert (`none`
when the no-valid-locations alert is shown instead). -/
def importKMLReport (existing : List Brewery) (seed : Nat) (doc : XNode) :
    List Brewery × Option Nat :=
  if 0 < (parseKML seed doc).length then
    (mergeImported existing (parseKML seed doc), some (parseKML seed doc).length)
  else (existing, none)

/-- `handleAddToMap` (promotion of a found brewery): append the given record
to the committed list, remove its id from the found list. -/
def handleAddToMap (breweries foundBreweries : List Brewery) (b : Brewery) :
    List Brewery × List Brewery :=
  (breweries ++ [b], foundBreweries.filter (fun x => !(x.id == b.id)))

/-- The brewery created by the manual-add button (fresh id, fixed fields). -/
def newManualBrewery (fid : String) : Brewery :=
  { id := fid, name := "New Location", description := "Description here",
    address := some "", category := .COMMON,
    coordinates := ⟨JSVal.num ⟨404168, 4⟩, JSVal.num ⟨-37038, 4⟩⟩ }

/-- The modal's editable fields (`formData` deltas: every input the modal
renders writes a string field); `none` = left as loaded. -/
structure EditPatch where
  name : Option String := none
  description : Option String := none
  address : Option String := none
  website : Option String := none
  googleMapsUri : Option String := none
  category : Option BreweryCategory := none
  aliveStatus : Option AliveStatus := none

/-- The spread `{ ...brewery, ...formData }`. -/
def overlay (b : Brewery) (p : EditPatch) : Brewery :=
  { b with
    name := p.name.getD b.name,
    description := p.description.getD b.description,
    address := (p.address.map some).getD b.address,
    website := (p.website.map some).getD b.website,
    googleMapsUri := (p.googleMapsUri.map some).getD b.googleMapsUri,
    category := p.category.getD b.category,
    aliveStatus := (p.aliveStatus.map some).getD b.aliveStatus }

/-- The two collections held in component state. -/
structure AppSt where
  breweries : List Brewery
  foundBreweries : List Brewery
deriving DecidableEq

/-- `handleSave` in the App: replace by id in whichever list holds the id. -/
def appHandleSave (s : AppSt) (updated : Brewery) : AppSt :=
  if s.breweries.any (fun b => b.id == updated.id) then
    { s with breweries :=
        s.breweries.map (fun b => if b.id = updated.id then updated else b) }
  else if s.foundBreweries.any (fun b => b.id == updated.id) then
    { s with foundBreweries :=
        s.foundBreweries.map (fun b => if b.id = updated.id then updated else b) }
  else s

/-- The modal's `handleSave` composed with the App's: the write happens only
when the resulting record's name is truthy (its coordinates object, never
edited by the modal, is always present and hence always truthy). -/
def applyEdit (s : AppSt) (b : Brewery) (p : EditPatch) : AppSt :=
  if (overlay b p).name = "" then s else appHandleSave s (overlay b p)

/-- The per-record update written by `handleCheckStatus`. -/
def healthUpdate (collection : List Brewery) (id : String) (st : AliveStatus)
    (date : String) : List Brewery :=
  collection.map (fun b =>
    if b.id = id then { b with aliveStatus := some st, lastAliveCheck := some date }
    else b)

/-- `handleCheckStatus` once the gateway call resolves: the committed list is
searched first, the found list second; only the holding list is rewritten. -/
def handleCheckStatus (s : AppSt) (id : String) (st : AliveStatus) (date : String) :
    AppSt :=
  if s.breweries.any (fun b => b.id == id) then
    { s with breweries := healthUpdate s.breweries id st date }
  else if s.foundBreweries.any (fun b => b.id == id) then
    { s with foundBreweries := healthUpdate s.foundBreweries id st date }
  else s

/-- `handleDelete` (after the confirmation dialog). -/
def handleDelete (breweries : List Brewery) (id : String) : List Brewery :=
  breweries.filter (fun b => !(b.id == id))

/-- The state-changing operations named by the uniqueness-invariant claim:
KML import merge, promotion from the found list, manual add, edit, delete. -/
inductive Step : AppSt → AppSt → Prop
  | importKML (s : AppSt) (seed : Nat) (doc : XNode) :
      Step s ⟨(importKMLReport s.breweries seed doc).1, s.foundBreweries⟩
  | promote (s : AppSt) (b : Brewery) (hb : b ∈ s.foundBreweries) :
      Step s ⟨(handleAddToMap s.breweries s.foundBreweries b).1,
              (handleAddToMap s.breweries s.foundBreweries b).2⟩
  | manualAdd (s : AppSt) (fid : String) :
      Step s ⟨s.breweries ++ [newManualBrewery fid], s.foundBreweries⟩
  | edit (s : AppSt) (b : Brewery) (p : EditPatch)
      (hb : b ∈ s.breweries ∨ b ∈ s.foundBreweries) :
      Step s (applyEdit s b p)
  | delete (s : AppSt) (id : String) :
      Step s ⟨handleDelete s.breweries id, s.foundBreweries⟩

/-- Reachability by the state-changing operations. -/
inductive Reachable : AppSt → AppSt → Prop
  | refl (s : AppSt) : Reachable s s
  | tail {s t u : AppSt} : Reachable s t → Step t u → Reachable s u

/-- Case-insensitive uniqueness of the names in a collection. -/
def namesUniqueCI (l : List Brewery) : Prop :=
  (l.map (fun b => jsToLower b.name)).Nodup

/-! ## String and tree computation lemmas -/

theorem str_mk_data (s : String) : String.mk s.data = s := by cases s; rfl

theorem str_append_empty (s : String) : s ++ "" = s := by
  cases s with
  | mk l =>
    show String.mk (l ++ []) = String.mk l
    rw [List.append_nil]

theorem str_data_append (s t : String) : (s ++ t).data = s.data ++ t.data := by
  cases s; cases t; rfl

theorem str_ne_empty_of_mem (s : String) (c : Char) (h : c ∈ s.data) : ¬ s = "" := by
  intro he
  rw [he] at h
  simp at h

theorem nbtL_append (tag : String) (l1 l2 : List XNode) :
    nodesByTagList tag (l1 ++ l2) = nodesByTagList tag l1 ++ nodesByTagList tag l2 := by
  induction l1 with
  | nil => simp [nodesByTagList]
  | cons c rest ih => simp [nodesByTagList, ih]

theorem nbtL_optData_ne (tag nm : String) (o : Option String)
    (h1 : ¬ ("Data" = tag)) (h2 : ¬ ("value" = tag)) :
    nodesByTagList tag (optData nm o) = [] := by
  cases o with
  | none => rfl
  | some s =>
    by_cases hs : s = ""
    · simp [optData, hs, nodesByTagList]
    · simp [optData, hs, nodesByTagList, nodesByTag, h1, h2]

theorem nbtL_optData_data (nm s : String) (hs : ¬ s = "") :
    nodesByTagList "Data" (optData nm (some s))
      = [XNode.elem "Data" [("name", nm)] [XNode.elem "value" [] [XNode.text s]]] := by
  simp [optData, hs, nodesByTagList, nodesByTag]

theorem jsSplit_no_sep (s : String) (sep : Char) (h : sep ∉ s.data) :
    jsSplit s sep = [s] := by
  unfold jsSplit
  rw [splitSepL_no_sep sep s.data h]
  simp [str_mk_data]

theorem jsToLower_address : jsToLower "address" = "address" := by decide

theorem jsToLower_website : jsToLower "website" = "website" := by decide

theorem jsToLower_gmu : jsToLower "googleMapsUri" = "googlemapsuri" := by decide

theorem jsToLower_alive : jsToLower "aliveStatus" = "alivestatus" := by decide

theorem jsTrim_active : jsTrim "active" = "active" := by decide

theorem jsTrim_inactive : jsTrim "inactive" = "inactive" := by decide

theorem jsTrim_unknown : jsTrim "unknown" = "unknown" := by decide

/-! ## Strategy-1 evaluation on the writer's `Data` nodes -/

theorem dataStep_address (acc : ExtAcc) (x : String) (hx : jsTrim x = x) (hne : ¬ x = "") :
    dataStep acc
      (XNode.elem "Data" [("name", "address")] [XNode.elem "value" [] [XNode.text x]])
      = { acc with address := x } := by
  unfold dataStep
  simp [getAttr, nodesByTag, nodesByTagList, textContentN, textContentList,
    str_append_empty, hx, hne, jsToLower_address]

theorem dataStep_website (acc : ExtAcc) (x : String) (hx : jsTrim x = x) (hne : ¬ x = "")
    (hsp : ' ' ∉ x.data) :
    dataStep acc
      (XNode.elem "Data" [("name", "website")] [XNode.elem "value" [] [XNode.text x]])
      = { acc with website := x } := by
  unfold dataStep
  simp [getAttr, nodesByTag, nodesByTagList, textContentN, textContentList,
    str_append_empty, hx, hne, jsSplit_no_sep x ' ' hsp, jsToLower_website]

theorem dataStep_maps (acc : ExtAcc) (x : String) (hx : jsTrim x = x) (hne : ¬ x = "") :
    dataStep acc
      (XNode.elem "Data" [("name", "googleMapsUri")] [XNode.elem "value" [] [XNode.text x]])
      = { acc with googleMapsUri := x } := by
  unfold dataStep
  simp [getAttr, nodesByTag, nodesByTagList, textContentN, textContentList,
    str_append_empty, hx, hne, jsToLower_gmu]

theorem dataStep_status (acc : ExtAcc) (st : AliveStatus) :
    dataStep acc
      (XNode.elem "Data" [("name", "aliveStatus")]
        [XNode.elem "value" [] [XNode.text st.toStr]])
      = { acc with aliveStatus := st } := by
  unfold dataStep
  cases st <;>
    simp [getAttr, nodesByTag, nodesByTagList, textContentN, textContentList,
      str_append_empty, AliveStatus.toStr, jsToLower_alive, jsTrim_active, jsTrim_inactive,
      jsTrim_unknown]

/-! ## The coordinates string written by the encoder -/

theorem coordsData (x1 x2 : JSVal) :
    (renderVal x1 ++ "," ++ renderVal x2 ++ ",0").data
      = renderValL x1 ++ ',' :: (renderValL x2 ++ ',' :: ['0']) := by
  rw [str_data_append, str_data_append, str_data_append]
  show (renderValL x1 ++ [','] ++ renderValL x2) ++ [',', '0']
      = renderValL x1 ++ ',' :: (renderValL x2 ++ ',' :: ['0'])
  simp

theorem coordsString_trim (x1 x2 : JSVal) :
    jsTrim (renderVal x1 ++ "," ++ renderVal x2 ++ ",0")
      = renderVal x1 ++ "," ++ renderVal x2 ++ ",0" := by
  unfold jsTrim
  rw [coordsData, trimCharsL_no_ws]
  · cases hs : (renderVal x1 ++ "," ++ renderVal x2 ++ ",0") with
    | mk l =>
      have hdata := congrArg String.data hs
      rw [coordsData] at hdata
      simp only [hdata]
  · intro c hc
    rcases List.mem_append.mp hc with hc | hc
    · exact renderValL_no_ws x1 c hc
    · rcases List.mem_cons.mp hc with rfl | hc
      · rfl
      rcases List.mem_append.mp hc with hc | hc
      · exact renderValL_no_ws x2 c hc
      · rcases List.mem_cons.mp hc with rfl | hc
        · rfl
        · rcases List.mem_singleton.mp hc with rfl
          rfl

theorem coordsString_ne (x1 x2 : JSVal) :
    ¬ (renderVal x1 ++ "," ++ renderVal x2 ++ ",0") = "" := by
  apply str_ne_empty_of_mem _ ','
  rw [coordsData]
  exact List.mem_append_right _ (List.mem_cons_self _ _)

theorem coordsString_split (x1 x2 : JSVal) :
    jsSplit (renderVal x1 ++ "," ++ renderVal x2 ++ ",0") ','
      = [renderVal x1, renderVal x2, "0"] := by
  unfold jsSplit
  rw [coordsData, splitSepL_append ',' _ _ (renderValL_no_comma x1),
    splitSepL_append ',' _ _ (renderValL_no_comma x2),
    splitSepL_no_sep ',' ['0'] (by decide)]
  simp only [List.map_cons, List.map_nil]
  rw [str_mk_data, str_mk_data]
  rfl

/-! ## Round trip of the writer through the reader -/

theorem parsePlacemark_encode (fid : String) (cat : BreweryCategory) (v : Brewery)
    (a w g : String) (st : AliveStatus)
    (hname : ¬ v.name = "")
    (ha : v.address = some a) (ha1 : ¬ a = "") (ha2 : jsTrim a = a)
    (hw : v.website = some w) (hw1 : ¬ w = "") (hw2 : jsTrim w = w) (hw3 : ' ' ∉ w.data)
    (hg : v.googleMapsUri = some g) (hg1 : ¬ g = "") (hg2 : jsTrim g = g)
    (hst : v.aliveStatus = some st)
    (hd1 : '<' ∉ v.description.data) (hd2 : jsTrim v.description = v.description) :
    parsePlacemark fid (encodePlacemark v) cat
      = some { v with id := fid, category := cat, lastAliveCheck := none } := by
  have hstne : ¬ st.toStr = "" := by cases st <;> decide
  have hd2' : trimCharsL v.description.data = v.description.data := by
    have hdd := congrArg String.data hd2
    simpa [jsTrim] using hdd
  have henc : encodePlacemark v = XNode.elem "Placemark" []
      [XNode.elem "name" [] [XNode.text v.name],
       XNode.elem "description" [] [XNode.text v.description],
       XNode.elem "ExtendedData" []
         [XNode.elem "Data" [("name", "address")] [XNode.elem "value" [] [XNode.text a]],
          XNode.elem "Data" [("name", "website")] [XNode.elem "value" [] [XNode.text w]],
          XNode.elem "Data" [("name", "googleMapsUri")]
            [XNode.elem "value" [] [XNode.text g]],
          XNode.elem "Data" [("name", "aliveStatus")]
            [XNode.elem "value" [] [XNode.text st.toStr]]],
       XNode.elem "Point" []
         [XNode.elem "coordinates" []
           [XNode.text (renderVal v.coordinates.lng ++ "," ++ renderVal v.coordinates.lat
              ++ ",0")]]] := by
    unfold encodePlacemark
    rw [ha, hw, hg, hst]
    simp [optData, ha1, hw1, hg1, hstne]
  rw [henc]
  unfold parsePlacemark
  simp [nodesByTag, nodesByTagList, coordText, textContentN, textContentList,
    str_append_empty, coordsString_trim, coordsString_ne, coordsString_split,
    jsParseFloatO, parse_render_str, cleanDescription_plain, hd1, hd2',
    hname, ha, ha1, ha2, hw, hw1, hw2, hw3, hg, hg1, hg2, hst, hstne,
    dataStep_address, dataStep_website, dataStep_maps, dataStep_status, simpleDataStep]

theorem getCat_label (c : BreweryCategory) :
    getCategoryFromFolder (BreweryCategory.label c) = c := by
  cases c <;> decide

theorem parsePlacemarks_cons_some (n : Nat) (cat : BreweryCategory) (p : XNode)
    (rest : List XNode) (b : Brewery) (h : parsePlacemark (genId n) p cat = some b) :
    parsePlacemarks n cat (p :: rest) = b :: parsePlacemarks (n + 1) cat rest := by
  simp only [parsePlacemarks, h]

theorem parsePlacemarks_cons_none (n : Nat) (cat : BreweryCategory) (p : XNode)
    (rest : List XNode) (h : parsePlacemark (genId n) p cat = none) :
    parsePlacemarks n cat (p :: rest) = parsePlacemarks n cat rest := by
  simp only [parsePlacemarks, h]

theorem parseKML_export_single (v : Brewery)
    (a w g : String) (st : AliveStatus)
    (hname : ¬ v.name = "")
    (ha : v.address = some a) (ha1 : ¬ a = "") (ha2 : jsTrim a = a)
    (hw : v.website = some w) (hw1 : ¬ w = "") (hw2 : jsTrim w = w) (hw3 : ' ' ∉ w.data)
    (hg : v.googleMapsUri = some g) (hg1 : ¬ g = "") (hg2 : jsTrim g = g)
    (hst : v.aliveStatus = some st)
    (hd1 : '<' ∉ v.description.data) (hd2 : jsTrim v.description = v.description) :
    parseKML 0 (exportKML [v]) = [{ v with id := genId 0, lastAliveCheck := none }] := by
  have hpm := parsePlacemark_encode (genId 0) v.category v a w g st hname ha ha1 ha2
    hw hw1 hw2 hw3 hg hg1 hg2 hst hd1 hd2
  have hexp : exportKML [v] = XNode.elem "kml" []
      [XNode.elem "Document" []
        [XNode.elem "name" [] [XNode.text "Craft Beer Map Spain"],
         XNode.elem "Folder" []
           [XNode.elem "name" [] [XNode.text v.category.label],
            encodePlacemark v]]] := by
    cases hcat : v.category <;>
      simp [exportKML, categoryValues, encodeFolder, List.filter, hcat]
  have hfold : nodesByTag "Folder" (exportKML [v]) = [XNode.elem "Folder" []
      [XNode.elem "name" [] [XNode.text v.category.label], encodePlacemark v]] := by
    rw [hexp]
    simp [nodesByTag, nodesByTagList, encodePlacemark, nbtL_append, nbtL_optData_ne]
  have hfname : ((nodesByTag "name" (XNode.elem "Folder" []
      [XNode.elem "name" [] [XNode.text v.category.label],
       encodePlacemark v])).head?.map textContentN).getD "" = v.category.label := by
    simp [nodesByTag, nodesByTagList, encodePlacemark, nbtL_append, nbtL_optData_ne,
      textContentN, textContentList, str_append_empty]
  have hcatmap : getCategoryFromFolder (BreweryCategory.label v.category) = v.category :=
    getCat_label v.category
  have hplace : nodesByTag "Placemark" (XNode.elem "Folder" []
      [XNode.elem "name" [] [XNode.text v.category.label], encodePlacemark v])
        = [encodePlacemark v] := by
    simp [nodesByTag, nodesByTagList, encodePlacemark, nbtL_append, nbtL_optData_ne]
  have h1 : parseFolders 0 [XNode.elem "Folder" []
      [XNode.elem "name" [] [XNode.text v.category.label], encodePlacemark v]]
      = ([{ v with id := genId 0, lastAliveCheck := none }], true) := by
    simp only [parseFolders, hfname, hcatmap, hplace]
    simp only [parsePlacemarks_cons_some 0 v.category (encodePlacemark v) [] _ hpm]
    simp [parsePlacemarks]
  unfold parseKML
  rw [hfold, h1]
  simp


/-! ## Concrete sample data -/

/-- A minimal committed-collection record for concrete instances. -/
def sampleBrewery (i nm : String) : Brewery :=
  { id := i, name := nm, description := "", category := .COMMON,
    coordinates := ⟨JSVal.num ⟨0, 0⟩, JSVal.num ⟨0, 0⟩⟩ }

/-- The spec's invalid-coordinate placemark. -/
def badCoordPlacemark : XNode :=
  XNode.elem "Placemark" []
    [XNode.elem "name" [] [XNode.text "Bad"],
     XNode.elem "Point" [] [XNode.elem "coordinates" [] [XNode.text "notanumber,40.1"]]]

/-- A sibling placemark with valid coordinates. -/
def goodPlacemark : XNode :=
  XNode.elem "Placemark" []
    [XNode.elem "name" [] [XNode.text "Good"],
     XNode.elem "Point" [] [XNode.elem "coordinates" [] [XNode.text "2.5,40.1"]]]

/-- A document holding the invalid placemark and a decodable sibling. -/
def mixedDoc : XNode :=
  XNode.elem "kml" [] [XNode.elem "Document" [] [badCoordPlacemark, goodPlacemark]]

/-- The record `goodPlacemark` decodes to. -/
def goodRecord : Brewery :=
  { id := genId 0, name := "Good", description := "", category := .COMMON,
    coordinates := ⟨JSVal.num ⟨401, 1⟩, JSVal.num ⟨25, 1⟩⟩, address := some "",
    aliveStatus := some .unknown }

/-- A document decoding to a single record named `ROW 44`. -/
def row44Doc : XNode :=
  XNode.elem "kml" []
    [XNode.elem "Document" []
      [XNode.elem "Placemark" []
        [XNode.elem "name" [] [XNode.text "ROW 44"],
         XNode.elem "Point" [] [XNode.elem "coordinates" [] [XNode.text "2.5,40.1"]]]]]

/-- A concrete fully-populated venue whose website contains a space. -/
def spacedWebsiteVenue : Brewery :=
  { id := "v1", name := "Cerveza Alpha", description := "Nice place",
    category := .GOLD, coordinates := ⟨JSVal.num ⟨404168, 4⟩, JSVal.num ⟨-37038, 4⟩⟩,
    address := some "Calle Mayor 1", website := some "https://alpha.example extra",
    googleMapsUri := some "https://maps.google.com/?q=alpha",
    aliveStatus := some .active, lastAliveCheck := some "2024-01-01" }

/-- A concrete fully-populated venue with clean field values. -/
def cleanVenue : Brewery :=
  { id := "v2", name := "Cerveza Beta", description := "Great taproom",
    category := .TAP_ROOM, coordinates := ⟨JSVal.num ⟨404168, 4⟩, JSVal.num ⟨-37038, 4⟩⟩,
    address := some "Calle Mayor 2", website := some "https://beta.example",
    googleMapsUri := some "https://maps.google.com/?q=beta",
    aliveStatus := some .inactive, lastAliveCheck := some "2024-02-02" }

/-! ## Placemark failure and success characterizations -/

theorem parsePlacemark_none_of_bad (fid : String) (p : XNode) (cat : BreweryCategory)
    (h : coordText p = none ∨ ∃ raw, coordText p = some raw ∧
      (jsParseFloatO ((jsSplit raw ',').get? 0) = none
        ∨ jsParseFloatO ((jsSplit raw ',').get? 1) = none)) :
    parsePlacemark fid p cat = none := by
  unfold parsePlacemark
  rcases h with h | ⟨raw, hraw, hbad⟩
  · simp [h]
  · rw [hraw]
    by_cases hre : raw = ""
    · simp [hre]
    · simp only [List.get?_eq_getElem?] at hbad
      rcases hbad with hb | hb
      · simp [hre, hb]
      · cases hx : jsParseFloatO ((jsSplit raw ',')[0]?) with
        | none => simp [hre, hx]
        | some lg => simp [hre, hx, hb]

theorem parsePlacemarks_skip (cat : BreweryCategory) (p : XNode)
    (hp : ∀ fid, parsePlacemark fid p cat = none) :
    ∀ (l1 l2 : List XNode) (n : Nat),
      parsePlacemarks n cat (l1 ++ p :: l2) = parsePlacemarks n cat (l1 ++ l2) := by
  intro l1
  induction l1 with
  | nil =>
    intro l2 n
    simpa using parsePlacemarks_cons_none n cat p l2 (hp (genId n))
  | cons c t ih =>
    intro l2 n
    cases hx : parsePlacemark (genId n) c cat with
    | some b =>
      rw [List.cons_append, List.cons_append, parsePlacemarks_cons_some n cat c _ b hx,
        parsePlacemarks_cons_some n cat c _ b hx, ih]
    | none =>
      rw [List.cons_append, List.cons_append, parsePlacemarks_cons_none n cat c _ hx,
        parsePlacemarks_cons_none n cat c _ hx, ih]

theorem parsePlacemark_coords_of_some (fid : String) (p : XNode) (cat : BreweryCategory)
    (b : Brewery) (h : parsePlacemark fid p cat = some b) :
    ∃ raw, coordText p = some raw
      ∧ jsParseFloatO ((jsSplit raw ',').get? 0) = some b.coordinates.lng
      ∧ jsParseFloatO ((jsSplit raw ',').get? 1) = some b.coordinates.lat := by
  unfold parsePlacemark at h
  cases hct : coordText p with
  | none => rw [hct] at h; simp at h
  | some raw =>
    rw [hct] at h
    by_cases hre : raw = ""
    · simp [hre] at h
    · simp only [List.get?_eq_getElem?] at h ⊢
      cases h0 : jsParseFloatO ((jsSplit raw ',')[0]?) with
      | none => simp [hre, h0] at h
      | some lg =>
        cases h1 : jsParseFloatO ((jsSplit raw ',')[1]?) with
        | none => simp [hre, h0, h1] at h
        | some lt =>
          simp only [hre, h0, h1, if_neg, ite_false] at h
          have hb := Option.some.inj h
          refine ⟨raw, rfl, ?_, ?_⟩
          · rw [h0, ← hb]
          · rw [h1, ← hb]

/-! ## Claim C1 -/

/-- C1 counterexample: `spacedWebsiteVenue` has every optional field populated
and a plain-text description, yet decoding its encoding yields a single
record whose website is truncated at the space, so the round trip is not
exact on the website field. -/
theorem c1_counterexample :
    (parseKML 0 (exportKML [spacedWebsiteVenue])).map (fun b => b.website)
        = [some "https://alpha.example"]
      ∧ spacedWebsiteVenue.website = some "https://alpha.example extra"
      ∧ ¬ (some "https://alpha.example" = spacedWebsiteVenue.website) := by
  refine ⟨by decide, rfl, by decide⟩

/-- C1 (amended): for every venue whose name is nonempty, whose optional
fields address, website, maps-link and status are populated with nonempty
trim-invariant strings, whose website contains no space, and whose
description is plain text (no markup, trim-invariant), decoding the encoding
of `[v]` yields exactly one record equal to `v` on name, category,
coordinates, address, website, maps-link, status and description (only the
freshly generated id and the unserialized `lastAliveCheck` differ). -/
theorem c1_roundtrip_amended (v : Brewery)
    (hname : ¬ v.name = "")
    (haddr : ∃ a, v.address = some a ∧ ¬ a = "" ∧ jsTrim a = a)
    (hweb : ∃ w, v.website = some w ∧ ¬ w = "" ∧ jsTrim w = w ∧ ' ' ∉ w.data)
    (hmaps : ∃ g, v.googleMapsUri = some g ∧ ¬ g = "" ∧ jsTrim g = g)
    (hstatus : ∃ st, v.aliveStatus = some st)
    (hdesc : '<' ∉ v.description.data ∧ jsTrim v.description = v.description) :
    parseKML 0 (exportKML [v]) = [{ v with id := genId 0, lastAliveCheck := none }] := by
  obtain ⟨a, ha, ha1, ha2⟩ := haddr
  obtain ⟨w, hw, hw1, hw2, hw3⟩ := hweb
  obtain ⟨g, hg, hg1, hg2⟩ := hmaps
  obtain ⟨st, hst⟩ := hstatus
  exact parseKML_export_single v a w g st hname ha ha1 ha2 hw hw1 hw2 hw3 hg hg1 hg2 hst
    hdesc.1 hdesc.2

/-- C1 witness: the amended round trip evaluated on a concrete clean venue. -/
theorem c1_roundtrip_witness :
    parseKML 0 (exportKML [cleanVenue])
      = [{ cleanVenue with id := genId 0, lastAliveCheck := none }] :=
  c1_roundtrip_amended cleanVenue (by decide)
    ⟨"Calle Mayor 2", rfl, by decide, by decide⟩
    ⟨"https://beta.example", rfl, by decide, by decide, by decide⟩
    ⟨"https://maps.google.com/?q=beta", rfl, by decide, by decide⟩
    ⟨.inactive, rfl⟩
    ⟨by decide, by decide⟩

/-! ## Claim C2 -/

/-- C2 counterexample: pressing the manual-add button twice yields a
reachable state whose committed collection holds two records both named
`New Location`, violating case-insensitive name uniqueness. -/
theorem c2_counterexample :
    Reachable ⟨[], []⟩ ⟨[newManualBrewery "a", newManualBrewery "b"], []⟩
      ∧ ¬ namesUniqueCI [newManualBrewery "a", newManualBrewery "b"] := by
  constructor
  · exact Reachable.tail
      (Reachable.tail (Reachable.refl ⟨[], []⟩) (Step.manualAdd ⟨[], []⟩ "a"))
      (Step.manualAdd ⟨[newManualBrewery "a"], []⟩ "b")
  · unfold namesUniqueCI
    decide

/-- C2 (amended): the KML import merge never appends an incoming record whose
lower-cased name already occurs in the pre-merge committed collection;
collection-wide name uniqueness is not an invariant of the other
operations. -/
theorem c2_merge_no_collision (existing incoming : List Brewery) (b : Brewery)
    (hb : b ∈ (mergeImported existing incoming).drop existing.length) :
    ¬ jsToLower b.name ∈ existing.map (fun e => jsToLower e.name) := by
  unfold mergeImported at hb
  rw [List.drop_left] at hb
  have hpred := List.of_mem_filter hb
  intro hmem
  simp only [Bool.not_eq_true'] at hpred
  rw [List.contains_eq_any_beq] at hpred
  have hany : (existing.map (fun e => jsToLower e.name)).any
      (fun x => jsToLower b.name == x) = true := by
    rw [List.any_eq_true]
    exact ⟨jsToLower b.name, hmem, by simp⟩
  rw [hany] at hpred
  exact absurd hpred (by decide)

/-- C2 witness: the merge filter evaluated on the Row 44 instance. -/
theorem c2_merge_witness :
    ¬ jsToLower (sampleBrewery "3" "New Place").name
        ∈ [sampleBrewery "1" "Row 44"].map (fun e => jsToLower e.name) :=
  c2_merge_no_collision [sampleBrewery "1" "Row 44"]
    [sampleBrewery "2" "ROW 44", sampleBrewery "3" "New Place"]
    (sampleBrewery "3" "New Place") (by decide)

/-! ## Claim C3 -/

/-- Spec-side restatement of the merge: keep exactly the incoming records
whose name matches no existing record case-insensitively. -/
def mergeImportedSpec (existing incoming : List Brewery) : List Brewery :=
  existing ++ incoming.filter (fun b =>
    decide (∀ e ∈ existing, ¬ jsToLower e.name = jsToLower b.name))

/-- C3: the merge equals its specification — the existing collection followed
by exactly those incoming records whose lower-cased name appears in no
existing record, colliding records being dropped — and the Row 44 instance
yields the existing record plus only `New Place`. -/
theorem c3_mergeImported :
    (∀ existing incoming : List Brewery,
      mergeImported existing incoming = mergeImportedSpec existing incoming)
    ∧ mergeImported [sampleBrewery "1" "Row 44"]
        [sampleBrewery "2" "ROW 44", sampleBrewery "3" "New Place"]
      = [sampleBrewery "1" "Row 44", sampleBrewery "3" "New Place"] := by
  constructor
  · intro existing incoming
    unfold mergeImported mergeImportedSpec
    congr 1
    apply List.filter_congr
    intro b _
    rw [List.contains_eq_any_beq]
    by_cases hd : ∀ e ∈ existing, ¬ jsToLower e.name = jsToLower b.name
    · rw [decide_eq_true hd]
      have hfalse : (List.map (fun e => jsToLower e.name) existing).any
          (fun x => jsToLower b.name == x) = false := by
        rw [List.any_eq_false]
        intro x hx
        simp only [List.mem_map] at hx
        obtain ⟨e, he, rfl⟩ := hx
        simp only [beq_iff_eq]
        exact fun hxx => hd e he hxx.symm
      rw [hfalse]
      rfl
    · rw [decide_eq_false hd]
      push_neg at hd
      obtain ⟨e, he, hee⟩ := hd
      have htrue : (List.map (fun e => jsToLower e.name) existing).any
          (fun x => jsToLower b.name == x) = true := by
        rw [List.any_eq_true]
        exact ⟨jsToLower e.name, List.mem_map_of_mem _ he, by simp [hee]⟩
      rw [htrue]
      rfl
  · decide

/-! ## Claim C4 -/

/-- C4 counterexample: promoting a found record moves it, but promoting the
same record again — its id now absent from the found list — is not a no-op:
the record is appended a second time.  This falsifies both the repeat-no-op
and the absent-id-no-op parts of the claim. -/
theorem c4_counterexample :
    handleAddToMap [] [sampleBrewery "7" "Bar"] (sampleBrewery "7" "Bar")
        = ([sampleBrewery "7" "Bar"], [])
      ∧ handleAddToMap [sampleBrewery "7" "Bar"] [] (sampleBrewery "7" "Bar")
        = ([sampleBrewery "7" "Bar", sampleBrewery "7" "Bar"], [])
      ∧ ¬ handleAddToMap [sampleBrewery "7" "Bar"] [] (sampleBrewery "7" "Bar")
          = ([sampleBrewery "7" "Bar"], []) := by
  refine ⟨by decide, by decide, by decide⟩

/-- C4 (amended): after promotion no record with the promoted id remains in
the found list, and the committed list gains exactly one more record with
that id — hence exactly one when the id was absent before.  Promotion
appends unconditionally, so repeating it, or calling it with a record whose
id is not staged, adds a duplicate instead of being a no-op. -/
theorem c4_promote_amended (existing staged : List Brewery) (b : Brewery) :
    (handleAddToMap existing staged b).2.countP (fun x => x.id == b.id) = 0
    ∧ (handleAddToMap existing staged b).1.countP (fun x => x.id == b.id)
        = existing.countP (fun x => x.id == b.id) + 1
    ∧ (existing.countP (fun x => x.id == b.id) = 0 →
        (handleAddToMap existing staged b).1.countP (fun x => x.id == b.id) = 1) := by
  unfold handleAddToMap
  refine ⟨?_, ?_, ?_⟩
  · rw [List.countP_eq_zero]
    intro x hx
    have hpx := List.of_mem_filter hx
    simp only [Bool.not_eq_true'] at hpx
    simp [hpx]
  · rw [List.countP_append]
    simp
  · intro h
    rw [List.countP_append, h]
    simp

/-- C4 witness: promoting into an empty committed collection yields exactly
one record with the promoted id. -/
theorem c4_promote_witness :
    (handleAddToMap [] [] (sampleBrewery "9" "W")).1.countP
        (fun x => x.id == (sampleBrewery "9" "W").id) = 1 :=
  (c4_promote_amended [] [] (sampleBrewery "9" "W")).2.2 (by decide)

/-! ## Claim C5 -/

/-- A document whose only placemark carries the coordinate text
`Infinity,40.1`: `parseFloat("Infinity")` is `Infinity`, which passes the
source's `!isNaN` guard. -/
def infinityDoc : XNode :=
  XNode.elem "kml" []
    [XNode.elem "Document" []
      [XNode.elem "Placemark" []
        [XNode.elem "name" [] [XNode.text "Edge"],
         XNode.elem "Point" []
           [XNode.elem "coordinates" [] [XNode.text "Infinity,40.1"]]]]]

/-- The record `infinityDoc` decodes to: its longitude is `Infinity`. -/
def infinityRecord : Brewery :=
  { id := genId 0, name := "Edge", description := "", category := .COMMON,
    coordinates := ⟨JSVal.num ⟨401, 1⟩, JSVal.inf false⟩, address := some "",
    aliveStatus := some .unknown }

/-- C5 counterexample: the source's only coordinate guard is `isNaN`, so a
placemark whose coordinate text is `Infinity,40.1` is not dropped — it
decodes to a record whose longitude is the non-finite `Infinity`, refuting
the clause that the decoded coordinates of every produced record are both
finite numbers. -/
theorem c5_counterexample :
    parseKML 0 infinityDoc = [infinityRecord]
      ∧ infinityRecord.coordinates.lng.isFinite = false := by
  refine ⟨by decide, by decide⟩

/-- C5 (amended): (i) a placemark whose point geometry is missing or whose
coordinate text parses to `NaN` on either axis contributes no record;
(ii) such a placemark can be removed from any sibling list without changing
the decode of the remaining placemarks, so decoding never aborts on it;
(iii) every produced record's coordinates come from successful — non-`NaN`,
but possibly infinite — parses of the two axes; (iv) the spec's
`notanumber,40.1` document decodes to exactly its valid sibling. -/
theorem c5_invalid_coordinate_drop :
    (∀ (fid : String) (p : XNode) (cat : BreweryCategory),
      (coordText p = none ∨ ∃ raw, coordText p = some raw ∧
        (jsParseFloatO ((jsSplit raw ',').get? 0) = none
          ∨ jsParseFloatO ((jsSplit raw ',').get? 1) = none)) →
      parsePlacemark fid p cat = none)
    ∧ (∀ (cat : BreweryCategory) (p : XNode),
        (∀ fid, parsePlacemark fid p cat = none) →
        ∀ (l1 l2 : List XNode) (n : Nat),
          parsePlacemarks n cat (l1 ++ p :: l2) = parsePlacemarks n cat (l1 ++ l2))
    ∧ (∀ (fid : String) (p : XNode) (cat : BreweryCategory) (b : Brewery),
        parsePlacemark fid p cat = some b →
        ∃ raw, coordText p = some raw
          ∧ jsParseFloatO ((jsSplit raw ',').get? 0) = some b.coordinates.lng
          ∧ jsParseFloatO ((jsSplit raw ',').get? 1) = some b.coordinates.lat)
    ∧ parseKML 0 mixedDoc = [goodRecord] :=
  ⟨parsePlacemark_none_of_bad, parsePlacemarks_skip, parsePlacemark_coords_of_some,
    by decide⟩

/-- C5 witness: the spec's invalid-coordinate placemark decodes to no
record. -/
theorem c5_witness :
    parsePlacemark "x" badCoordPlacemark BreweryCategory.COMMON = none :=
  c5_invalid_coordinate_drop.1 "x" badCoordPlacemark BreweryCategory.COMMON
    (Or.inr ⟨"notanumber,40.1", by decide, Or.inl (by decide)⟩)

/-! ## Claim C6 -/

/-- The patch writing only the address field. -/
def addressPatch (addr : String) : EditPatch := { address := some addr }

/-- C6: an edit whose resulting record has an empty name leaves the state
unchanged, and an address-only patch on a record with a nonempty name
replaces exactly that record in the committed collection, the replacement
differing from the original only in the address field. -/
theorem c6_applyEdit :
    (∀ (s : AppSt) (b : Brewery) (p : EditPatch),
      (overlay b p).name = "" → applyEdit s b p = s)
    ∧ (∀ (s : AppSt) (b : Brewery) (addr : String),
        ¬ b.name = "" → s.breweries.any (fun x => x.id == b.id) = true →
        applyEdit s b (addressPatch addr)
          = { s with breweries := s.breweries.map (fun x =>
              if x.id = b.id then overlay b (addressPatch addr) else x) }
        ∧ overlay b (addressPatch addr) = { b with address := some addr }) := by
  constructor
  · intro s b p h
    unfold applyEdit
    rw [if_pos h]
  · intro s b addr hn hmem
    have hov : overlay b (addressPatch addr) = { b with address := some addr } := by
      unfold overlay addressPatch
      simp
    refine ⟨?_, hov⟩
    unfold applyEdit appHandleSave
    rw [hov]
    have h1 : ¬ ({ b with address := some addr } : Brewery).name = "" := hn
    have h2 : (s.breweries.any
        (fun x => x.id == ({ b with address := some addr } : Brewery).id)) = true := hmem
    rw [if_neg h1, if_pos h2]

/-- C6 witness: the successful address edit evaluated on a concrete state. -/
theorem c6_witness :
    applyEdit ⟨[sampleBrewery "5" "Bar X"], []⟩ (sampleBrewery "5" "Bar X")
        (addressPatch "New Rd")
      = ⟨[{ sampleBrewery "5" "Bar X" with address := some "New Rd" }], []⟩ := by
  have h := (c6_applyEdit.2 ⟨[sampleBrewery "5" "Bar X"], []⟩ (sampleBrewery "5" "Bar X")
    "New Rd" (by decide) (by decide)).1
  rw [h]
  decide

/-! ## Claim C7 -/

/-- C7 counterexample: importing a document that decodes one record named
`ROW 44` into a collection already holding `Row 44` adds nothing to the
collection, yet the alert reports a count of 1 — the observable aggregate is
the decoded count, not the number of records added (which is 0). -/
theorem c7_counterexample :
    (importKMLReport [sampleBrewery "1" "Row 44"] 0 row44Doc).2 = some 1
      ∧ (importKMLReport [sampleBrewery "1" "Row 44"] 0 row44Doc).1
          = [sampleBrewery "1" "Row 44"]
      ∧ ¬ (1 : Nat) = 0 := by
  refine ⟨by decide, by decide, by decide⟩

/-- C7 (amended): whenever anything decodes, the count the import reports
equals the number of decoded records, while the number of records appended
to the collection is the size of the collision-filtered batch — the two
differ exactly when name collisions drop records. -/
theorem c7_report_decoded_count (existing : List Brewery) (seed : Nat) (doc : XNode)
    (h : 0 < (parseKML seed doc).length) :
    (importKMLReport existing seed doc).2 = some (parseKML seed doc).length
    ∧ (importKMLReport existing seed doc).1.length
        = existing.length + ((parseKML seed doc).filter (fun b =>
            !((existing.map (fun e => jsToLower e.name)).contains
                (jsToLower b.name)))).length := by
  unfold importKMLReport mergeImported
  rw [if_pos h]
  simp

/-- C7 witness: the amended statement evaluated on the Row 44 import. -/
theorem c7_witness :
    (importKMLReport [sampleBrewery "1" "Row 44"] 0 row44Doc).2
        = some (parseKML 0 row44Doc).length :=
  (c7_report_decoded_count [sampleBrewery "1" "Row 44"] 0 row44Doc (by decide)).1

/-! ## Claim C8 -/

/-- C8: `healthUpdate` rewrites only `aliveStatus` and `lastAliveCheck` of
the records whose id matches — every other field of the matching record and
every other record are unchanged, position by position — and the dispatch in
`handleCheckStatus` rewrites only the collection that holds the id
(committed first, found otherwise, nothing when the id is absent). -/
theorem c8_healthUpdate_frame :
    (∀ (collection : List Brewery) (id : String) (st : AliveStatus) (date : String)
        (i : Nat) (b : Brewery), collection.get? i = some b →
      (¬ b.id = id → (healthUpdate collection id st date).get? i = some b)
      ∧ (b.id = id → ∃ b2, (healthUpdate collection id st date).get? i = some b2
          ∧ b2.id = b.id ∧ b2.name = b.name ∧ b2.description = b.description
          ∧ b2.category = b.category ∧ b2.coordinates = b.coordinates
          ∧ b2.address = b.address ∧ b2.website = b.website
          ∧ b2.googleMapsUri = b.googleMapsUri
          ∧ b2.aliveStatus = some st ∧ b2.lastAliveCheck = some date))
    ∧ (∀ (s : AppSt) (id : String) (st : AliveStatus) (date : String),
        (s.breweries.any (fun x => x.id == id) = true →
          handleCheckStatus s id st date
            = { s with breweries := healthUpdate s.breweries id st date })
        ∧ (s.breweries.any (fun x => x.id == id) = false →
            s.foundBreweries.any (fun x => x.id == id) = true →
          handleCheckStatus s id st date
            = { s with foundBreweries := healthUpdate s.foundBreweries id st date })
        ∧ (s.breweries.any (fun x => x.id == id) = false →
            s.foundBreweries.any (fun x => x.id == id) = false →
          handleCheckStatus s id st date = s)) := by
  constructor
  · intro collection id st date i b hb
    constructor
    · intro hne
      unfold healthUpdate
      rw [List.get?_eq_getElem?] at hb ⊢
      rw [List.getElem?_map, hb]
      simp [hne]
    · intro heq
      refine ⟨{ b with aliveStatus := some st, lastAliveCheck := some date }, ?_,
        rfl, rfl, rfl, rfl, rfl, rfl, rfl, rfl, rfl, rfl⟩
      unfold healthUpdate
      rw [List.get?_eq_getElem?] at hb ⊢
      rw [List.getElem?_map, hb]
      simp [heq]
  · intro s id st date
    refine ⟨?_, ?_, ?_⟩
    · intro h
      unfold handleCheckStatus
      rw [if_pos h]
    · intro h1 h2
      unfold handleCheckStatus
      rw [if_neg (by simp [h1]), if_pos h2]
    · intro h1 h2
      unfold handleCheckStatus
      rw [if_neg (by simp [h1]), if_neg (by simp [h2])]

/-- C8 witness: the committed-collection dispatch evaluated on a concrete
state. -/
theorem c8_witness :
    handleCheckStatus ⟨[sampleBrewery "8" "Z"], []⟩ "8" AliveStatus.active "2024-03-03"
      = ⟨healthUpdate [sampleBrewery "8" "Z"] "8" AliveStatus.active "2024-03-03", []⟩ :=
  (c8_healthUpdate_frame.2 ⟨[sampleBrewery "8" "Z"], []⟩ "8" AliveStatus.active
    "2024-03-03").1 (by decide)

end CraftBeerMap
